import Mathlib

/-!
# Verification of the nyuki workflow-template storage and migration layer

Shallow embedding of `nyuki/workflow/db/storage.py`, `nyuki/workflow/db/triggers.py`
and the template schema-migration step exercised by
`nyuki/workflow/tests/test_migrations.py`.

Mongo collections are modelled as Lean lists of records; dictionaries as
association lists with unique keys (python `dict` semantics: `pop` removes the
key, assignment replaces in place or appends).  Async I/O is sequential here,
so the coroutines become plain state-passing functions.
-/

namespace Nyuki

/-! ## JSON-like values for task configurations -/

/-- A JSON-ish value, as stored in a task's `config` mapping. -/
inductive JVal where
  | str (s : String)
  | bool (b : Bool)
  | num (n : Nat)
  | obj (fields : List (String × JVal))

/-- Python `dict` lookup on an association list (keys unique). -/
def dGet : List (String × JVal) → String → Option JVal
  | [], _ => none
  | (k, v) :: rest, key => if k = key then some v else dGet rest key

/-- Python `dict.pop(key)`: remove the binding for `key` (keys are unique, so
removing every binding of `key` coincides with removing the one binding). -/
def dErase : List (String × JVal) → String → List (String × JVal)
  | [], _ => []
  | (k, v) :: rest, key => if k = key then dErase rest key else (k, v) :: dErase rest key

/-- Python `dict[key] = v`: replace the value in place when the key exists,
otherwise append the new binding at the end (keys being unique, any further
binding of the key is dropped). -/
def dSet : List (String × JVal) → String → JVal → List (String × JVal)
  | [], key, v => [(key, v)]
  | (k, w) :: rest, key, v =>
    if k = key then (key, v) :: dErase rest key else (k, w) :: dSet rest key v

/-- Substring of `s` before its first `/` (python `s.split('/')[0]`). -/
def serviceOf (s : String) : String :=
  String.mk (s.toList.takeWhile (fun c => c ≠ '/'))

/-! ## The trigger_workflow migration step -/

/-- Errors of the migration engine. -/
inductive MigrationError where
  | missingField
  deriving DecidableEq, Repr

/-- Modelled from the spec: the transform of the migration step for
`trigger_workflow` task configs lives in `nyuki/workflow/api/templates.py`
(`TemplateCollection._migrate`), which is not part of the sources at hand;
only its tests are.  Per the spec, the flat fields `nyuki_api`, `template`,
`draft`, `timeout` are removed and a nested `template` object
`{service, id, draft}` is added, `service` being the substring of `nyuki_api`
before its first `/`; a `blocking` object `{timeout}` is added exactly when
the flat `timeout` was present; a missing expected field fails with
`MigrationError` and the document is left unmodified. -/
def migrateTriggerConfig (cfg : List (String × JVal)) :
    Except MigrationError (List (String × JVal)) :=
  match dGet cfg "nyuki_api", dGet cfg "template", dGet cfg "draft" with
  | some (JVal.str api), some tmpl, some draftVal =>
    let base := dErase (dErase (dErase cfg "nyuki_api") "template") "draft"
    let withTemplate := dSet base "template"
      (JVal.obj [("service", JVal.str (serviceOf api)), ("id", tmpl), ("draft", draftVal)])
    match dGet cfg "timeout" with
    | some t =>
      Except.ok (dSet (dErase withTemplate "timeout") "blocking" (JVal.obj [("timeout", t)]))
    | none => Except.ok withTemplate
  | _, _, _ => Except.error MigrationError.missingField

/-- A task of a workflow template document (id, name and config mapping). -/
structure WTask where
  id : String
  name : String
  config : List (String × JVal)

/-- Apply the trigger step to one task: only tasks named `trigger_workflow`
are rewritten, every other task passes through unchanged. -/
def migrateTask (t : WTask) : Except MigrationError WTask :=
  if t.name = "trigger_workflow" then
    (migrateTriggerConfig t.config).map (fun c => { t with config := c })
  else Except.ok t

/-- A workflow template document as fetched for migration: header fields plus
its task list plus the schema marker (`surycat_version`); `marker = none`
models a document that predates markers. -/
structure TemplateDoc where
  id : String
  title : String
  policy : String
  draft : Bool
  graph : List (String × List String)
  tags : List String
  tasks : List WTask
  marker : Option String

/-- Modelled from the spec: the oldest schema marker; a document lacking a
marker is treated as being at this marker. -/
def oldestMarker : String := "1.0"

/-- The current schema marker exposed by the running software
(`SURYCAT_VERSION`, `4.0` in the repository's tests). -/
def currentMarker : String := "4.0"

/-- Effective marker of a document (absence means the oldest marker). -/
def markerOf (d : TemplateDoc) : String := d.marker.getD oldestMarker

/-- One migration step: `(sourceMarker, targetMarker, transform)`. -/
structure MigrationStep where
  source : String
  target : String
  transform : TemplateDoc → Except MigrationError TemplateDoc

/-- Run a fallible function over a list, stopping at the first error
(the python `for task in template['tasks']` loop). -/
def exceptMapM {α β ε : Type} (f : α → Except ε β) : List α → Except ε (List β)
  | [] => Except.ok []
  | a :: l =>
    match f a with
    | Except.error e => Except.error e
    | Except.ok b => (exceptMapM f l).map (fun l' => b :: l')

/-- The trigger_workflow step, oldest marker to current marker. -/
def triggerStep : MigrationStep where
  source := oldestMarker
  target := currentMarker
  transform := fun d => (exceptMapM migrateTask d.tasks).map (fun ts => { d with tasks := ts })

/-- Modelled from the spec: the statically-built ordered step chain of the
migration engine (the engine itself, `TemplateCollection._migrate`, is not in
the sources at hand). -/
def migrations : List MigrationStep := [triggerStep]

/-- Run the step chain in order: a step fires exactly when its source marker
equals the document's current marker, and advances the marker to its target. -/
def runSteps : List MigrationStep → TemplateDoc → Except MigrationError TemplateDoc
  | [], d => Except.ok d
  | s :: rest, d =>
    if markerOf d = s.source then
      match s.transform d with
      | Except.error e => Except.error e
      | Except.ok d2 => runSteps rest { d2 with marker := some s.target }
    else runSteps rest d

/-- Model of `MigrationEngine.upgrade`: bring a fetched document up to the current
schema marker. -/
def upgrade (d : TemplateDoc) : Except MigrationError TemplateDoc :=
  runSteps migrations d

/-- What the spec promises of a migrated `trigger_workflow` config, relative
to the old flat config: flat `nyuki_api`/`draft`/`timeout` gone, a nested
`template` object as described, `blocking` added exactly when `timeout` was
present, all other keys untouched. -/
def triggerConfigRewritten (cfg cfg' : List (String × JVal)) : Prop :=
  ∀ api tmpl dv,
    dGet cfg "nyuki_api" = some (JVal.str api) →
    dGet cfg "template" = some tmpl →
    dGet cfg "draft" = some dv →
    dGet cfg' "nyuki_api" = none ∧
    dGet cfg' "draft" = none ∧
    dGet cfg' "timeout" = none ∧
    dGet cfg' "template" =
      some (JVal.obj [("service", JVal.str (serviceOf api)), ("id", tmpl), ("draft", dv)]) ∧
    (∀ t, dGet cfg "timeout" = some t →
      dGet cfg' "blocking" = some (JVal.obj [("timeout", t)])) ∧
    (dGet cfg "timeout" = none → dGet cfg' "blocking" = dGet cfg "blocking") ∧
    (∀ k, k ≠ "nyuki_api" → k ≠ "template" → k ≠ "draft" → k ≠ "timeout" →
      k ≠ "blocking" → dGet cfg' k = dGet cfg k)

/-! ### Dictionary lemmas -/

theorem dGet_dErase_self (cfg : List (String × JVal)) (key : String) :
    dGet (dErase cfg key) key = none := by
  induction cfg with
  | nil => rfl
  | cons kv rest ih =>
    obtain ⟨k, v⟩ := kv
    by_cases h : k = key
    · simpa [dErase, h] using ih
    · simp [dErase, dGet, h, ih]

theorem dGet_dErase_ne (cfg : List (String × JVal)) (key k : String) (h : k ≠ key) :
    dGet (dErase cfg key) k = dGet cfg k := by
  induction cfg with
  | nil => rfl
  | cons kv rest ih =>
    obtain ⟨k0, v⟩ := kv
    by_cases h0 : k0 = key
    · subst h0
      simp [dErase, dGet, Ne.symm h, ih]
    · by_cases h1 : k0 = k
      · subst h1; simp [dErase, dGet, h0]
      · simp [dErase, dGet, h0, h1, ih]

theorem dGet_dSet_self (cfg : List (String × JVal)) (key : String) (v : JVal) :
    dGet (dSet cfg key v) key = some v := by
  induction cfg with
  | nil => simp [dSet, dGet]
  | cons kv rest ih =>
    obtain ⟨k0, w⟩ := kv
    by_cases h0 : k0 = key
    · simp [dSet, h0, dGet]
    · simp [dSet, dGet, h0, ih]

theorem dGet_dSet_ne (cfg : List (String × JVal)) (key k : String) (v : JVal) (h : k ≠ key) :
    dGet (dSet cfg key v) k = dGet cfg k := by
  induction cfg with
  | nil => simp [dSet, dGet, Ne.symm h]
  | cons kv rest ih =>
    obtain ⟨k0, w⟩ := kv
    by_cases h0 : k0 = key
    · subst h0
      simp [dSet, dGet, Ne.symm h, dGet_dErase_ne rest k0 k h]
    · by_cases h1 : k0 = k
      · subst h1; simp [dSet, dGet, h0]
      · simp [dSet, dGet, h0, h1, ih]

/-! ### The trigger step rewrites configs as the spec describes -/

theorem migrateTriggerConfig_rewrites (cfg cfg' : List (String × JVal))
    (hok : migrateTriggerConfig cfg = Except.ok cfg') :
    triggerConfigRewritten cfg cfg' := by
  intro api tmpl dv h1 h2 h3
  unfold migrateTriggerConfig at hok
  rw [h1, h2, h3] at hok
  cases ht : dGet cfg "timeout" with
  | some t =>
    rw [ht] at hok
    simp only [Except.ok.injEq] at hok
    subst hok
    refine ⟨?_, ?_, ?_, ?_, ?_, ?_, ?_⟩
    · rw [dGet_dSet_ne _ _ _ _ (by decide), dGet_dErase_ne _ _ _ (by decide),
        dGet_dSet_ne _ _ _ _ (by decide), dGet_dErase_ne _ _ _ (by decide),
        dGet_dErase_ne _ _ _ (by decide)]
      exact dGet_dErase_self cfg "nyuki_api"
    · rw [dGet_dSet_ne _ _ _ _ (by decide), dGet_dErase_ne _ _ _ (by decide),
        dGet_dSet_ne _ _ _ _ (by decide)]
      exact dGet_dErase_self _ "draft"
    · rw [dGet_dSet_ne _ _ _ _ (by decide)]
      exact dGet_dErase_self _ "timeout"
    · rw [dGet_dSet_ne _ _ _ _ (by decide), dGet_dErase_ne _ _ _ (by decide)]
      exact dGet_dSet_self _ "template" _
    · intro t' ht'
      cases ht'
      exact dGet_dSet_self _ "blocking" _
    · intro hnone; cases hnone
    · intro k hk1 hk2 hk3 hk4 hk5
      rw [dGet_dSet_ne _ _ _ _ hk5, dGet_dErase_ne _ _ _ hk4,
        dGet_dSet_ne _ _ _ _ hk2, dGet_dErase_ne _ _ _ hk3,
        dGet_dErase_ne _ _ _ hk2, dGet_dErase_ne _ _ _ hk1]
  | none =>
    rw [ht] at hok
    simp only [Except.ok.injEq] at hok
    subst hok
    refine ⟨?_, ?_, ?_, ?_, ?_, ?_, ?_⟩
    · rw [dGet_dSet_ne _ _ _ _ (by decide), dGet_dErase_ne _ _ _ (by decide),
        dGet_dErase_ne _ _ _ (by decide)]
      exact dGet_dErase_self cfg "nyuki_api"
    · rw [dGet_dSet_ne _ _ _ _ (by decide)]
      exact dGet_dErase_self _ "draft"
    · rw [dGet_dSet_ne _ _ _ _ (by decide), dGet_dErase_ne _ _ _ (by decide),
        dGet_dErase_ne _ _ _ (by decide), dGet_dErase_ne _ _ _ (by decide)]
      exact ht
    · exact dGet_dSet_self _ "template" _
    · intro t' ht'; cases ht'
    · intro _
      rw [dGet_dSet_ne _ _ _ _ (by decide), dGet_dErase_ne _ _ _ (by decide),
        dGet_dErase_ne _ _ _ (by decide), dGet_dErase_ne _ _ _ (by decide)]
    · intro k hk1 hk2 hk3 hk4 hk5
      rw [dGet_dSet_ne _ _ _ _ hk2, dGet_dErase_ne _ _ _ hk3,
        dGet_dErase_ne _ _ _ hk2, dGet_dErase_ne _ _ _ hk1]

theorem migrateTask_ok (t t' : WTask) (hok : migrateTask t = Except.ok t') :
    t'.id = t.id ∧ t'.name = t.name ∧
    (t.name ≠ "trigger_workflow" → t' = t) ∧
    (t.name = "trigger_workflow" → triggerConfigRewritten t.config t'.config) := by
  unfold migrateTask at hok
  by_cases h : t.name = "trigger_workflow"
  · rw [if_pos h] at hok
    cases hcfg : migrateTriggerConfig t.config with
    | error e => rw [hcfg] at hok; exact Except.noConfusion hok
    | ok c =>
      rw [hcfg] at hok
      simp only [Except.map, Except.ok.injEq] at hok
      subst hok
      exact ⟨rfl, rfl, fun hne => absurd h hne,
        fun _ => migrateTriggerConfig_rewrites _ _ hcfg⟩
  · rw [if_neg h] at hok
    cases hok
    exact ⟨rfl, rfl, fun _ => rfl, fun hh => absurd hh h⟩

theorem exceptMapM_ok_get {α β ε : Type} (f : α → Except ε β)
    (l : List α) (l' : List β) (h : exceptMapM f l = Except.ok l') :
    l'.length = l.length ∧
    ∀ i (hi : i < l.length) (hi' : i < l'.length),
      f (l.get ⟨i, hi⟩) = Except.ok (l'.get ⟨i, hi'⟩) := by
  induction l generalizing l' with
  | nil =>
    simp only [exceptMapM, Except.ok.injEq] at h
    subst h
    exact ⟨rfl, fun i hi _ => absurd hi (by simp)⟩
  | cons a l ih =>
    unfold exceptMapM at h
    cases hf : f a with
    | error e => rw [hf] at h; exact Except.noConfusion h
    | ok b =>
      rw [hf] at h
      cases hl : exceptMapM f l with
      | error e => rw [hl] at h; exact Except.noConfusion h
      | ok l2 =>
        rw [hl] at h
        simp only [Except.map, Except.ok.injEq] at h
        subst h
        obtain ⟨hlen, hget⟩ := ih l2 hl
        refine ⟨by simp [hlen], ?_⟩
        intro i hi hi'
        cases i with
        | zero => simpa using hf
        | succ j =>
          simpa using hget j (by simpa using hi) (by simpa using hi')

/-- Unfolding of `upgrade` for the single-step chain. -/
theorem runSteps_single (d : TemplateDoc) :
    upgrade d =
      if markerOf d = oldestMarker then
        match exceptMapM migrateTask d.tasks with
        | Except.error e => Except.error e
        | Except.ok ts => Except.ok { d with tasks := ts, marker := some currentMarker }
      else Except.ok d := by
  simp only [upgrade, migrations, runSteps, triggerStep]
  cases hm : exceptMapM migrateTask d.tasks with
  | error e =>
    by_cases h : markerOf d = oldestMarker
    · rw [if_pos h, if_pos h]; rfl
    · rw [if_neg h, if_neg h]
  | ok ts =>
    by_cases h : markerOf d = oldestMarker
    · rw [if_pos h, if_pos h]; rfl
    · rw [if_neg h, if_neg h]

theorem upgrade_current_noop (d : TemplateDoc) (h : markerOf d ≠ oldestMarker) :
    upgrade d = Except.ok d := by
  rw [runSteps_single, if_neg h]

/-- Claim C1: If a workflow template document sits at the oldest schema marker,
upgrading it advances the marker to the current value, leaves every
template-level field and every task id/name unchanged, leaves non-trigger
tasks entirely unchanged, and rewrites the config of every
`trigger_workflow` task from the old flat shape to the nested
`template`/`blocking` shape (per `triggerConfigRewritten`). -/
theorem upgrade_rewrites_trigger_tasks (d d' : TemplateDoc)
    (hm : markerOf d = oldestMarker)
    (hup : upgrade d = Except.ok d') :
    d'.marker = some currentMarker ∧ d'.id = d.id ∧ d'.title = d.title ∧
    d'.policy = d.policy ∧ d'.draft = d.draft ∧ d'.graph = d.graph ∧
    d'.tags = d.tags ∧ d'.tasks.length = d.tasks.length ∧
    ∀ i (hi : i < d.tasks.length) (hi' : i < d'.tasks.length),
      (d'.tasks.get ⟨i, hi'⟩).id = (d.tasks.get ⟨i, hi⟩).id ∧
      (d'.tasks.get ⟨i, hi'⟩).name = (d.tasks.get ⟨i, hi⟩).name ∧
      ((d.tasks.get ⟨i, hi⟩).name ≠ "trigger_workflow" →
        d'.tasks.get ⟨i, hi'⟩ = d.tasks.get ⟨i, hi⟩) ∧
      ((d.tasks.get ⟨i, hi⟩).name = "trigger_workflow" →
        triggerConfigRewritten (d.tasks.get ⟨i, hi⟩).config
          (d'.tasks.get ⟨i, hi'⟩).config) := by
  rw [runSteps_single, if_pos hm] at hup
  cases hmm : exceptMapM migrateTask d.tasks with
  | error e => rw [hmm] at hup; exact Except.noConfusion hup
  | ok ts =>
    rw [hmm] at hup
    cases hup
    obtain ⟨hlen, hget⟩ := exceptMapM_ok_get migrateTask d.tasks ts hmm
    refine ⟨rfl, rfl, rfl, rfl, rfl, rfl, rfl, hlen, ?_⟩
    intro i hi hi'
    have h := migrateTask_ok (d.tasks.get ⟨i, hi⟩) (ts.get ⟨i, hi'⟩) (hget i hi hi')
    exact ⟨h.1, h.2.1, h.2.2.1, h.2.2.2⟩

/-- The 1.0-era template document of `test_migrations.py` (`TEMPLATES['1.0']`). -/
def testDoc : TemplateDoc where
  id := "workflow-template-uid"
  title := "test"
  policy := "start-new"
  draft := true
  graph := [("1", [])]
  tags := []
  tasks := [{ id := "1", name := "trigger_workflow",
              config := [("nyuki_api", JVal.str "pipeline/api"),
                         ("template", JVal.str "task-template-uid"),
                         ("draft", JVal.bool false),
                         ("timeout", JVal.num 6000)] }]
  marker := none

/-- The document `testDoc` after the 4.0 migration (Scenario A of the spec). -/
def migratedTestDoc : TemplateDoc where
  id := "workflow-template-uid"
  title := "test"
  policy := "start-new"
  draft := true
  graph := [("1", [])]
  tags := []
  tasks := [{ id := "1", name := "trigger_workflow",
              config := [("template", JVal.obj
                            [("service", JVal.str "pipeline"),
                             ("id", JVal.str "task-template-uid"),
                             ("draft", JVal.bool false)]),
                         ("blocking", JVal.obj [("timeout", JVal.num 6000)])] }]
  marker := some "4.0"

/-- Witness for C1 at the concrete document of the repository's migration
test: the upgrade succeeds, and the migrated config has the nested shapes. -/
theorem upgrade_rewrites_trigger_tasks_witness :
    upgrade testDoc = Except.ok migratedTestDoc ∧
    migratedTestDoc.marker = some currentMarker ∧
    dGet (migratedTestDoc.tasks.get ⟨0, by decide⟩).config "nyuki_api" = none ∧
    dGet (migratedTestDoc.tasks.get ⟨0, by decide⟩).config "blocking" =
      some (JVal.obj [("timeout", JVal.num 6000)]) := by
  have h := upgrade_rewrites_trigger_tasks testDoc migratedTestDoc rfl rfl
  have h9 := h.2.2.2.2.2.2.2.2 0 (by decide) (by decide)
  have hr := h9.2.2.2 rfl "pipeline/api" (JVal.str "task-template-uid")
    (JVal.bool false) rfl rfl rfl
  exact ⟨rfl, h.1, hr.1, hr.2.2.2.2.1 (JVal.num 6000) rfl⟩

/-- Claim C6: `upgrade` on a document already at the current marker returns it
unchanged, and `upgrade` composed with itself agrees with a single
application on every document. -/
theorem upgrade_idempotent (d : TemplateDoc) :
    (d.marker = some currentMarker → upgrade d = Except.ok d) ∧
    Except.bind (upgrade d) upgrade = upgrade d := by
  constructor
  · intro h
    apply upgrade_current_noop
    rw [markerOf, h]
    decide
  · rw [runSteps_single]
    by_cases h : markerOf d = oldestMarker
    · rw [if_pos h]
      cases hmm : exceptMapM migrateTask d.tasks with
      | error e => rfl
      | ok ts =>
        show upgrade { d with tasks := ts, marker := some currentMarker } = _
        apply upgrade_current_noop
        show (some currentMarker).getD oldestMarker ≠ oldestMarker
        decide
    · rw [if_neg h]
      show upgrade d = Except.ok d
      exact upgrade_current_noop d h

/-- Witness for C6: a document already at the `4.0` marker is returned
unchanged. -/
theorem upgrade_idempotent_witness :
    upgrade migratedTestDoc = Except.ok migratedTestDoc :=
  (upgrade_idempotent migratedTestDoc).1 rfl

/-! ## The Mongo-backed template storage (`nyuki/workflow/db`) -/

/-- Lifecycle state of a workflow-template header row
(`TemplateState` in `workflow_templates.py`). -/
inductive TemplateState where
  | draft
  | active
  | archived
  deriving DecidableEq, Repr

/-- A workflow-template header row (`workflow_templates` collection):
id, version, state, trigger subscription and payload. -/
structure Header where
  id : String
  version : Nat
  state : TemplateState
  topics : List String
  graph : List (String × List String)
  deriving DecidableEq, Repr

/-- A task-body row (`task_templates` collection), keyed by
(template id, version, task id). -/
structure TaskBody where
  tid : String
  version : Nat
  taskId : String
  body : String
  deriving DecidableEq, Repr

/-- A metadata record (`metadata` collection), keyed by template id. -/
structure MetaDoc where
  tid : String
  title : String
  tags : List String
  deriving DecidableEq, Repr

/-- A stored trigger-form document (`triggers` collection), including its
mongo-internal `_id` (here `oid`). -/
structure TriggerDoc where
  oid : Nat
  tid : String
  form : String
  deriving DecidableEq, Repr

/-- A trigger form as returned by `TriggerCollection.get`: the projection
`{'_id': 0}` strips the internal `_id`. -/
structure TriggerView where
  tid : String
  form : String
  deriving DecidableEq, Repr

/-- One task of a create-draft request: its id plus an opaque config body. -/
structure TaskSpec where
  id : String
  body : String
  deriving DecidableEq, Repr

/-- The whole database state behind `MongoStorage`.  `maxEver` is the
spec-modelled ledger backing `get_last_version` (highest version ever
observed per template id); `nextOid` supplies fresh `_id`s for inserts. -/
structure Store where
  headers : List Header
  maxEver : String → Nat
  taskBodies : List TaskBody
  metadata : List MetaDoc
  triggers : List TriggerDoc
  nextOid : Nat

/-- The error taxonomy of the storage layer. -/
inductive WfError where
  | validationError
  | publishError
  | mergeTypeError
  deriving DecidableEq, Repr

namespace WorkflowTemplates

/-- Modelled from the spec: `WorkflowTemplatesCollection.get_last_version`
(`nyuki/workflow/db/workflow_templates.py`, absent from the sources at
hand) — the highest version number ever observed for a template id, 0 when
none exists; the store's `maxEver` ledger records exactly this. -/
def get_last_version (s : Store) (tid : String) : Nat := s.maxEver tid

/-- Modelled from the spec: `insertDraft` upserts the Draft row of the id
(overwriting any existing Draft) and fails with `ValidationError` when the
header's version is not `lastVersion(id) + 1`. -/
def insert_draft (s : Store) (h : Header) : Except WfError Store :=
  if h.version = get_last_version s h.id + 1 then
    Except.ok { s with
      headers := s.headers.filter
        (fun r => !(r.id == h.id && r.state == TemplateState.draft)) ++ [h],
      maxEver := fun i =>
        if i = h.id then max (s.maxEver i) h.version else s.maxEver i }
  else Except.error WfError.validationError

/-- Modelled from the spec: `publish` requires an existing Draft (else
`PublishError`), archives the Active row if one exists, and turns the Draft
row into the Active row. -/
def publish (s : Store) (tid : String) : Except WfError Store :=
  if s.headers.any (fun r => r.id == tid && r.state == TemplateState.draft) then
    Except.ok { s with headers := s.headers.map (fun r =>
      if r.id == tid && r.state == TemplateState.active then
        { r with state := TemplateState.archived }
      else if r.id == tid && r.state == TemplateState.draft then
        { r with state := TemplateState.active }
      else r) }
  else Except.error WfError.publishError

/-- Modelled from the spec: `getOne` — an explicit version wins regardless
of state; otherwise the Draft row (draft = true) or the Active row. -/
def get_one (s : Store) (tid : String) (draft : Bool) (version : Option Nat) :
    Option Header :=
  match version with
  | some v => s.headers.find? (fun r => r.id == tid && r.version == v)
  | none =>
    if draft then
      s.headers.find? (fun r => r.id == tid && r.state == TemplateState.draft)
    else
      s.headers.find? (fun r => r.id == tid && r.state == TemplateState.active)

/-- Modelled from the spec: all Active rows whose trigger subscription
matches the topic. -/
def get_for_topic (s : Store) (topic : String) : List Header :=
  s.headers.filter
    (fun r => r.state == TemplateState.active && r.topics.contains topic)

/-- Modelled from the spec: remove the Draft header row (draft = true) or
every header row of the id (draft = false); header rows only, this is the
collection of headers. -/
def delete (s : Store) (tid : String) (draft : Bool) : Store :=
  if draft then
    let keep := fun (r : Header) => !(r.id == tid && r.state == TemplateState.draft)
    { s with headers := s.headers.filter keep }
  else
    { s with headers := s.headers.filter (fun r => r.id != tid) }

end WorkflowTemplates

namespace TaskTemplates

/-- Modelled from the spec: `insert_many` upserts each task body, keyed by
(template id, version, task id). -/
def insert_many (s : Store) (tid : String) (version : Nat)
    (tasks : List TaskSpec) : Store :=
  { s with taskBodies := tasks.foldl (fun acc t =>
      acc.filter (fun b =>
        !(b.tid == tid && b.version == version && b.taskId == t.id)) ++
        [⟨tid, version, t.id, t.body⟩]) s.taskBodies }

/-- Modelled from the spec: all task bodies of one (template id, version). -/
def get (s : Store) (tid : String) (version : Nat) : List TaskBody :=
  s.taskBodies.filter (fun b => b.tid == tid && b.version == version)

/-- Modelled from the spec: remove every task body of a template id. -/
def delete_many (s : Store) (tid : String) : Store :=
  { s with taskBodies := s.taskBodies.filter (fun b => b.tid != tid) }

end TaskTemplates

namespace MetadataColl

/-- Modelled from the spec: `MetadataCollection.get_one` — the metadata
record of a template id, if any. -/
def get_one (s : Store) (tid : String) : Option MetaDoc :=
  s.metadata.find? (fun m => m.tid == tid)

/-- Modelled from the spec: insert a fresh metadata record. -/
def insert (s : Store) (m : MetaDoc) : Store :=
  { s with metadata := s.metadata ++ [m] }

/-- Modelled from the spec: delete the metadata record of a template id. -/
def delete (s : Store) (tid : String) : Store :=
  { s with metadata := s.metadata.filter (fun m => m.tid != tid) }

end MetadataColl

namespace Triggers

/-- Model of `replace_one({'tid': tid}, data, upsert=True)` from `triggers.py`:
replace the first matching document keeping its `_id`; insert with a fresh
`_id` when nothing matches. -/
def replace_one_upsert : List TriggerDoc → String → String → Nat → List TriggerDoc
  | [], tid, form, fresh => [⟨fresh, tid, form⟩]
  | d :: rest, tid, form, fresh =>
    if d.tid == tid then ⟨d.oid, tid, form⟩ :: rest
    else d :: replace_one_upsert rest tid form fresh

/-- Model of `TriggerCollection.get` (`triggers.py`):
`find_one({'tid': tid}, {'_id': 0})`. -/
def get (s : Store) (tid : String) : Option TriggerView :=
  (s.triggers.find? (fun d => d.tid == tid)).map (fun d => ⟨d.tid, d.form⟩)

/-- Model of `TriggerCollection.insert` (`triggers.py`): build
`{'tid': tid, 'form': form}`, upsert it keyed by `tid`, return it. -/
def insert (s : Store) (tid form : String) : Store × TriggerView :=
  ({ s with triggers := replace_one_upsert s.triggers tid form s.nextOid,
            nextOid := s.nextOid + 1 },
   ⟨tid, form⟩)

/-- Model of `delete_one({'tid': tid})`: remove the first matching document. -/
def delete_one : List TriggerDoc → String → List TriggerDoc
  | [], _ => []
  | d :: rest, tid => if d.tid == tid then rest else d :: delete_one rest tid

/-- Model of `TriggerCollection.delete` (`triggers.py`) with a template id given. -/
def delete (s : Store) (tid : String) : Store :=
  { s with triggers := delete_one s.triggers tid }

end Triggers

/-- A create-draft request body; the API layer validates the optional
fields before `update_draft` runs. -/
structure DraftSpec where
  id : Option String
  title : Option String
  tags : Option (List String)
  topics : List String
  graph : Option (List (String × List String))
  tasks : Option (List TaskSpec)

/-- The document `update_draft` hands back: the draft header merged with
its tasks, title and tags. -/
structure DraftResult where
  tid : String
  version : Nat
  state : TemplateState
  title : String
  tags : List String
  tasks : List TaskSpec
  deriving DecidableEq, Repr

/-- A template as returned by `get_for_topic`: header fields plus the task
bodies; no metadata fields at all. -/
structure TopicTemplate where
  id : String
  version : Nat
  state : TemplateState
  topics : List String
  graph : List (String × List String)
  tasks : List TaskBody
  deriving DecidableEq, Repr

/-- A template as returned by `get_template`: header fields, the metadata
fields merged in, and the task bodies. -/
structure FullTemplate where
  id : String
  version : Nat
  state : TemplateState
  topics : List String
  graph : List (String × List String)
  title : String
  tags : List String
  tasks : List TaskBody
  deriving DecidableEq, Repr

namespace MongoStorage

/-- Model of `MongoStorage.update_draft` (src `storage.py`), with the required-field
validation of the API layer in front of it (modelled from the spec: the
calling resource in `nyuki/workflow/api/templates.py` is absent from the
sources at hand; the spec requires `title`, `graph` and `tasks` and
generates an id — the fresh `genId` — when the request carries none).
The storage part follows the source: read-or-create metadata, force
`version = get_last_version + 1` and `state = draft`, insert the task
bodies, then the header row. -/
def update_draft (s : Store) (spec : DraftSpec) (genId : String) :
    Except WfError (Store × DraftResult) :=
  match spec.title, spec.graph, spec.tasks with
  | some title, some graph, some tasks =>
    let tid := spec.id.getD genId
    let sm :=
      match MetadataColl.get_one s tid with
      | some m => (s, m)
      | none =>
        let m : MetaDoc := ⟨tid, title, spec.tags.getD []⟩
        (MetadataColl.insert s m, m)
    let version := WorkflowTemplates.get_last_version sm.1 tid + 1
    let s2 := TaskTemplates.insert_many sm.1 tid version tasks
    let header : Header := ⟨tid, version, TemplateState.draft, spec.topics, graph⟩
    match WorkflowTemplates.insert_draft s2 header with
    | Except.error e => Except.error e
    | Except.ok s3 =>
      Except.ok (s3, ⟨tid, version, TemplateState.draft, sm.2.title, sm.2.tags, tasks⟩)
  | _, _, _ => Except.error WfError.validationError

/-- Model of `MongoStorage.publish_draft` (src `storage.py`). -/
def publish_draft (s : Store) (tid : String) : Except WfError Store :=
  WorkflowTemplates.publish s tid

/-- Model of `MongoStorage.get_for_topic` (src `storage.py`): fetch the matching
Active headers and attach each template's own task bodies; no metadata is
appended. -/
def get_for_topic (s : Store) (topic : String) : List TopicTemplate :=
  (WorkflowTemplates.get_for_topic s topic).map
    (fun h => ⟨h.id, h.version, h.state, h.topics, h.graph,
               TaskTemplates.get s h.id h.version⟩)

/-- Model of `MongoStorage.get_template` (src `storage.py`): `None` when the header
row is absent; otherwise `template.update(metadata)` — which raises a
`TypeError` when no metadata record exists, since `get_one` returned
`None` — then the task bodies are attached. -/
def get_template (s : Store) (tid : String) (draft : Bool)
    (version : Option Nat) : Except WfError (Option FullTemplate) :=
  match WorkflowTemplates.get_one s tid draft version with
  | none => Except.ok none
  | some h =>
    match MetadataColl.get_one s tid with
    | none => Except.error WfError.mergeTypeError
    | some m =>
      Except.ok (some ⟨h.id, h.version, h.state, h.topics, h.graph,
        m.title, m.tags, TaskTemplates.get s h.id h.version⟩)

/-- Model of `MongoStorage.delete_template` (src `storage.py`): delete the header
row(s); only when `draft` is false also the task bodies, the metadata
record and the trigger form. -/
def delete_template (s : Store) (tid : String) (draft : Bool) : Store :=
  let s1 := WorkflowTemplates.delete s tid draft
  if draft then s1
  else Triggers.delete (MetadataColl.delete (TaskTemplates.delete_many s1 tid) tid) tid

end MongoStorage

/-- A lifecycle request, for reasoning about request sequences. -/
inductive SOp where
  | createDraft (spec : DraftSpec) (genId : String)
  | publishDraft (tid : String)
  | deleteTemplate (tid : String) (draft : Bool)

/-- Apply one request to the store; a failed request leaves it unchanged. -/
def stepOp (s : Store) : SOp → Store
  | SOp.createDraft spec genId =>
    match MongoStorage.update_draft s spec genId with
    | Except.ok sr => sr.1
    | Except.error _ => s
  | SOp.publishDraft tid =>
    match MongoStorage.publish_draft s tid with
    | Except.ok s' => s'
    | Except.error _ => s
  | SOp.deleteTemplate tid draft => MongoStorage.delete_template s tid draft

/-- Versions assigned to templates of id `tid` by one request. -/
def assignedOf (s : Store) (op : SOp) (tid : String) : List Nat :=
  match op with
  | SOp.createDraft spec genId =>
    match MongoStorage.update_draft s spec genId with
    | Except.ok sr => if sr.2.tid = tid then [sr.2.version] else []
    | Except.error _ => []
  | _ => []

/-- Versions assigned to id `tid` along a request sequence. -/
def assignedTrace (s : Store) (ops : List SOp) (tid : String) : List Nat :=
  match ops with
  | [] => []
  | op :: rest => assignedOf s op tid ++ assignedTrace (stepOp s op) rest tid

/-- The store of a fresh database. -/
def emptyStore : Store :=
  { headers := [], maxEver := fun _ => 0, taskBodies := [], metadata := [],
    triggers := [], nextOid := 0 }

/-! ### Version allocation (C2) -/

theorem insert_many_fields (s : Store) (tid : String) (v : Nat)
    (ts : List TaskSpec) :
    (TaskTemplates.insert_many s tid v ts).maxEver = s.maxEver ∧
    (TaskTemplates.insert_many s tid v ts).headers = s.headers ∧
    (TaskTemplates.insert_many s tid v ts).metadata = s.metadata := ⟨rfl, rfl, rfl⟩

theorem update_draft_ok (s : Store) (spec : DraftSpec) (genId : String)
    (s' : Store) (r : DraftResult)
    (h : MongoStorage.update_draft s spec genId = Except.ok (s', r)) :
    r.tid = spec.id.getD genId ∧
    r.version = WorkflowTemplates.get_last_version s r.tid + 1 ∧
    r.state = TemplateState.draft ∧
    (∃ hd ∈ s'.headers, hd.id = r.tid ∧ hd.version = r.version ∧
      hd.state = TemplateState.draft) ∧
    (∀ i, s'.maxEver i = if i = r.tid then r.version else s.maxEver i) := by
  unfold MongoStorage.update_draft at h
  split at h
  case _ title graph tasks =>
    cases hM : MetadataColl.get_one s (spec.id.getD genId) with
    | some m =>
      simp only [hM] at h
      split at h
      · exact Except.noConfusion h
      next s3 heq =>
        cases h
        rw [WorkflowTemplates.insert_draft] at heq
        split at heq
        · cases heq
          refine ⟨rfl, rfl, rfl, ?_, ?_⟩
          · exact ⟨_, List.mem_append_right _ (List.mem_singleton.2 rfl), rfl, rfl, rfl⟩
          · intro i
            by_cases hi : i = spec.id.getD genId
            · simp [hi, (insert_many_fields _ _ _ _).1, WorkflowTemplates.get_last_version,
                Nat.max_eq_right (Nat.le_succ _)]
            · simp [hi, (insert_many_fields _ _ _ _).1]
        · exact absurd rfl (by assumption)
    | none =>
      simp only [hM] at h
      split at h
      · exact Except.noConfusion h
      next s3 heq =>
        cases h
        rw [WorkflowTemplates.insert_draft] at heq
        split at heq
        · cases heq
          refine ⟨rfl, rfl, rfl, ?_, ?_⟩
          · exact ⟨_, List.mem_append_right _ (List.mem_singleton.2 rfl), rfl, rfl, rfl⟩
          · intro i
            by_cases hi : i = spec.id.getD genId
            · simp [hi, (insert_many_fields _ _ _ _).1, WorkflowTemplates.get_last_version,
                MetadataColl.insert, Nat.max_eq_right (Nat.le_succ _)]
            · simp [hi, (insert_many_fields _ _ _ _).1, MetadataColl.insert]
        · exact absurd rfl (by assumption)
  case _ => exact absurd h (by simp)

theorem publish_maxEver (s s' : Store) (tid : String)
    (h : MongoStorage.publish_draft s tid = Except.ok s') :
    s'.maxEver = s.maxEver := by
  rw [MongoStorage.publish_draft, WorkflowTemplates.publish] at h
  split at h
  · cases h; rfl
  · exact Except.noConfusion h

theorem delete_template_maxEver (s : Store) (tid : String) (draft : Bool) :
    (MongoStorage.delete_template s tid draft).maxEver = s.maxEver := by
  cases draft <;> rfl

theorem stepOp_publish_maxEver (s : Store) (t : String) :
    (stepOp s (SOp.publishDraft t)).maxEver = s.maxEver := by
  rw [stepOp]
  cases hp : MongoStorage.publish_draft s t with
  | ok s' => exact publish_maxEver s s' t hp
  | error e => rfl

/-- Along any request sequence, the versions assigned to a fixed id form a
contiguous run starting just above the highest version ever observed. -/
theorem assignedTrace_range' (ops : List SOp) :
    ∀ (s : Store) (tid : String), ∃ n,
      assignedTrace s ops tid = List.range' (s.maxEver tid + 1) n 1 := by
  induction ops with
  | nil => exact fun s tid => ⟨0, rfl⟩
  | cons op rest ih =>
    intro s tid
    cases op with
    | createDraft spec genId =>
      cases hud : MongoStorage.update_draft s spec genId with
      | error e =>
        obtain ⟨n, hn⟩ := ih s tid
        refine ⟨n, ?_⟩
        simp only [assignedTrace, assignedOf, stepOp, hud, List.nil_append]
        exact hn
      | ok sr =>
        obtain ⟨s2, r⟩ := sr
        have hc := update_draft_ok s spec genId s2 r hud
        obtain ⟨n, hn⟩ := ih s2 tid
        by_cases htid : r.tid = tid
        · refine ⟨n + 1, ?_⟩
          simp only [assignedTrace, assignedOf, stepOp, hud, if_pos htid,
            List.singleton_append, List.range'_succ]
          have hmax : s2.maxEver tid = r.version := by
            rw [hc.2.2.2.2 tid]; exact if_pos htid.symm
          have hver : r.version = s.maxEver tid + 1 := htid ▸ hc.2.1
          rw [hver, hn, hmax, hver]
        · refine ⟨n, ?_⟩
          have hmax : s2.maxEver tid = s.maxEver tid := by
            rw [hc.2.2.2.2 tid]; exact if_neg (fun hh => htid hh.symm)
          simp only [assignedTrace, assignedOf, stepOp, hud, if_neg htid,
            List.nil_append]
          rw [hn, hmax]
    | publishDraft t =>
      obtain ⟨n, hn⟩ := ih (stepOp s (SOp.publishDraft t)) tid
      refine ⟨n, ?_⟩
      have hm := stepOp_publish_maxEver s t
      calc assignedTrace s (SOp.publishDraft t :: rest) tid
          = assignedTrace (stepOp s (SOp.publishDraft t)) rest tid := by
            simp only [assignedTrace, assignedOf, List.nil_append]
        _ = List.range' (s.maxEver tid + 1) n 1 := by rw [hn, hm]
    | deleteTemplate t dr =>
      obtain ⟨n, hn⟩ := ih (stepOp s (SOp.deleteTemplate t dr)) tid
      refine ⟨n, ?_⟩
      have hm : (stepOp s (SOp.deleteTemplate t dr)).maxEver = s.maxEver :=
        delete_template_maxEver s t dr
      calc assignedTrace s (SOp.deleteTemplate t dr :: rest) tid
          = assignedTrace (stepOp s (SOp.deleteTemplate t dr)) rest tid := by
            simp only [assignedTrace, assignedOf, List.nil_append]
        _ = List.range' (s.maxEver tid + 1) n 1 := by rw [hn, hm]

/-- Claim C2: Every successful create-draft allocates
`version = get_last_version(id) + 1` — one more than the highest version
ever observed for the id, archived and deleted versions included — and
writes the header row with state Draft; consequently, along any request
sequence from a fresh store, the versions assigned to a fixed id are
exactly `1, 2, 3, …`: strictly increasing by exactly 1 per successful
create-draft and never reassigned. -/
theorem createDraft_version_allocation :
    (∀ (s : Store) (spec : DraftSpec) (genId : String) (s' : Store) (r : DraftResult),
      MongoStorage.update_draft s spec genId = Except.ok (s', r) →
      r.version = WorkflowTemplates.get_last_version s r.tid + 1 ∧
      r.state = TemplateState.draft ∧
      ∃ hd ∈ s'.headers, hd.id = r.tid ∧ hd.version = r.version ∧
        hd.state = TemplateState.draft) ∧
    (∀ (ops : List SOp) (tid : String),
      assignedTrace emptyStore ops tid =
        List.range' 1 (assignedTrace emptyStore ops tid).length 1) := by
  constructor
  · intro s spec genId s' r h
    have hc := update_draft_ok s spec genId s' r h
    exact ⟨hc.2.1, hc.2.2.1, hc.2.2.2.1⟩
  · intro ops tid
    obtain ⟨n, hn⟩ := assignedTrace_range' ops emptyStore tid
    rw [hn, List.length_range']
    rfl

/-- A concrete create-draft request. -/
def specA : DraftSpec :=
  { id := some "tpl", title := some "T", tags := none, topics := [],
    graph := some [], tasks := some [⟨"1", "cfg"⟩] }

/-- Witness for C2: on a fresh store the first create-draft of `specA`
assigns version 1 with state Draft, and a two-request trace assigns
exactly [1, 2]. -/
theorem createDraft_version_allocation_witness :
    (∃ s' r, MongoStorage.update_draft emptyStore specA "gen" = Except.ok (s', r) ∧
      r.version = WorkflowTemplates.get_last_version emptyStore r.tid + 1 ∧
      r.state = TemplateState.draft) ∧
    assignedTrace emptyStore
      [SOp.createDraft specA "g1", SOp.createDraft specA "g2"] "tpl" =
      List.range' 1 (assignedTrace emptyStore
        [SOp.createDraft specA "g1", SOp.createDraft specA "g2"] "tpl").length 1 ∧
    assignedTrace emptyStore
      [SOp.createDraft specA "g1", SOp.createDraft specA "g2"] "tpl" = [1, 2] := by
  refine ⟨?_, createDraft_version_allocation.2 _ "tpl", rfl⟩
  cases hok : MongoStorage.update_draft emptyStore specA "gen" with
  | error e =>
    have hisok : (MongoStorage.update_draft emptyStore specA "gen").isOk = true := rfl
    rw [hok] at hisok
    exact Bool.noConfusion hisok
  | ok sr =>
    obtain ⟨s', r⟩ := sr
    have hc := createDraft_version_allocation.1 emptyStore specA "gen" s' r hok
    exact ⟨s', r, rfl, hc.1, hc.2.1⟩

/-! ### Deleting a draft and deleting a template (C3, C5) -/

theorem find?_none_of_all {α : Type} (l : List α) (p : α → Bool)
    (h : ∀ x ∈ l, p x = false) : l.find? p = none :=
  List.find?_eq_none.2 (fun x hx => by simp [h x hx])

theorem find?_filter_eq {α : Type} (l : List α) (p q : α → Bool)
    (himp : ∀ x, p x = true → q x = true) :
    (l.filter q).find? p = l.find? p := by
  induction l with
  | nil => rfl
  | cons a l ih =>
    by_cases hq : q a = true
    · rw [List.filter_cons_of_pos hq]
      by_cases hp : p a = true
      · rw [List.find?_cons_of_pos _ hp, List.find?_cons_of_pos _ hp]
      · rw [List.find?_cons_of_neg _ hp, List.find?_cons_of_neg _ hp, ih]
    · have hp : ¬p a = true := fun hpa => hq (himp a hpa)
      rw [List.filter_cons_of_neg hq, List.find?_cons_of_neg _ hp, ih]

/-- A store holding an Active v1 and a Draft v2 of template `"t"`, with
task bodies for both versions, a metadata record and a trigger form. -/
def storeC3 : Store :=
  { headers := [⟨"t", 1, TemplateState.active, [], []⟩,
                ⟨"t", 2, TemplateState.draft, [], []⟩],
    maxEver := fun i => if i = "t" then 2 else 0,
    taskBodies := [⟨"t", 1, "a", "b1"⟩, ⟨"t", 2, "a", "b2"⟩],
    metadata := [⟨"t", "T", []⟩],
    triggers := [⟨0, "t", "f"⟩],
    nextOid := 1 }

/-- Claim C3 counterexample: `delete_template` cascades to the task-body
collection only when `draft` is false (`storage.py`), so deleting the
draft of `"t"` removes the Draft header row but leaves the draft version's
task bodies in place — against the claim that they are removed too. -/
theorem delete_draft_keeps_draft_bodies :
    WorkflowTemplates.get_one (MongoStorage.delete_template storeC3 "t" true)
      "t" true none = none ∧
    TaskTemplates.get (MongoStorage.delete_template storeC3 "t" true) "t" 2 =
      [⟨"t", 2, "a", "b2"⟩] := ⟨rfl, rfl⟩

/-- Claim C3, amended: `deleteTemplate(id, draft=true)` removes exactly the
Draft header row and nothing else: all task bodies (the draft version's
included), the metadata record, the trigger form and every non-Draft header
row survive, and the Active template stays fetchable unchanged. -/
theorem delete_draft_frame (s : Store) (tid : String) :
    (MongoStorage.delete_template s tid true).headers =
      s.headers.filter
        (fun r => !(r.id == tid && r.state == TemplateState.draft)) ∧
    (MongoStorage.delete_template s tid true).taskBodies = s.taskBodies ∧
    (MongoStorage.delete_template s tid true).metadata = s.metadata ∧
    (MongoStorage.delete_template s tid true).triggers = s.triggers ∧
    WorkflowTemplates.get_one (MongoStorage.delete_template s tid true)
      tid true none = none ∧
    MongoStorage.get_template (MongoStorage.delete_template s tid true)
      tid false none = MongoStorage.get_template s tid false none ∧
    (∀ r ∈ s.headers, r.state ≠ TemplateState.draft →
      r ∈ (MongoStorage.delete_template s tid true).headers) := by
  have hgo : WorkflowTemplates.get_one (MongoStorage.delete_template s tid true)
      tid false none = WorkflowTemplates.get_one s tid false none := by
    show ((s.headers.filter _).find? _ : Option Header) = _
    refine find?_filter_eq _ _ _ ?_
    intro r hr
    simp only [Bool.and_eq_true, beq_iff_eq] at hr
    simp [hr.1, hr.2]
  refine ⟨rfl, rfl, rfl, rfl, ?_, ?_, ?_⟩
  · show ((s.headers.filter _).find? _ : Option Header) = none
    refine find?_none_of_all _ _ ?_
    intro r hr
    rw [List.mem_filter, Bool.not_eq_true'] at hr
    exact hr.2
  · rw [MongoStorage.get_template, MongoStorage.get_template, hgo]
    cases WorkflowTemplates.get_one s tid false none with
    | none => rfl
    | some hh => rfl
  · intro r hr hstate
    show r ∈ s.headers.filter _
    rw [List.mem_filter]
    refine ⟨hr, ?_⟩
    have : (r.state == TemplateState.draft) = false := by
      simpa using hstate
    simp [this]

/-- Witness for C3 (amended): concrete frame facts at `storeC3`, and the
archived/active rows survive. -/
theorem delete_draft_frame_witness :
    (MongoStorage.delete_template storeC3 "t" true).taskBodies =
      storeC3.taskBodies ∧
    MongoStorage.get_template (MongoStorage.delete_template storeC3 "t" true)
      "t" false none = MongoStorage.get_template storeC3 "t" false none ∧
    (⟨"t", 1, TemplateState.active, [], []⟩ : Header) ∈
      (MongoStorage.delete_template storeC3 "t" true).headers := by
  have h := delete_draft_frame storeC3 "t"
  exact ⟨h.2.1, h.2.2.2.2.2.1,
    h.2.2.2.2.2.2 ⟨"t", 1, TemplateState.active, [], []⟩ (by decide) (by decide)⟩

theorem delete_one_no_match (l : List TriggerDoc) (tid : String)
    (h : (l.filter (fun d => d.tid == tid)).length ≤ 1) :
    (Triggers.delete_one l tid).find? (fun d => d.tid == tid) = none := by
  induction l with
  | nil => rfl
  | cons d rest ih =>
    cases hd : d.tid == tid with
    | true =>
      rw [Triggers.delete_one, hd, if_pos rfl]
      rw [List.filter_cons_of_pos (p := fun x : TriggerDoc => x.tid == tid) hd] at h
      rw [List.length_cons] at h
      have hz : (rest.filter (fun x : TriggerDoc => x.tid == tid)).length = 0 := by
        omega
      refine find?_none_of_all _ _ ?_
      intro x hx
      have hx' := List.filter_eq_nil_iff.1 (List.length_eq_zero.1 hz) x hx
      simpa using hx'
    | false =>
      rw [Triggers.delete_one, hd, if_neg Bool.false_ne_true]
      rw [List.find?_cons_of_neg (p := fun x : TriggerDoc => x.tid == tid) _
        (by simp [hd])]
      rw [List.filter_cons_of_neg (p := fun x : TriggerDoc => x.tid == tid)
        (by simp [hd])] at h
      exact ih h

/-- Claim C5: `deleteTemplate(id, draft=false)` removes every header row of
the id, every one of its task bodies, its metadata record and its trigger
form; afterwards `get_template` answers none for every draft/version
query. -/
theorem delete_template_full (s : Store) (tid : String)
    (huniq : (s.triggers.filter (fun d => d.tid == tid)).length ≤ 1) :
    (∀ r ∈ (MongoStorage.delete_template s tid false).headers, r.id ≠ tid) ∧
    (∀ b ∈ (MongoStorage.delete_template s tid false).taskBodies, b.tid ≠ tid) ∧
    MetadataColl.get_one (MongoStorage.delete_template s tid false) tid = none ∧
    Triggers.get (MongoStorage.delete_template s tid false) tid = none ∧
    (∀ (draft : Bool) (v : Option Nat),
      MongoStorage.get_template (MongoStorage.delete_template s tid false)
        tid draft v = Except.ok none) := by
  have hids : ∀ r ∈ (MongoStorage.delete_template s tid false).headers,
      r.id ≠ tid := by
    intro r hr
    have := (List.mem_filter.1 hr).2
    simpa using this
  refine ⟨hids, ?_, ?_, ?_, ?_⟩
  · intro b hb
    have := (List.mem_filter.1 hb).2
    simpa using this
  · refine find?_none_of_all _ _ ?_
    intro m hm
    have := (List.mem_filter.1 hm).2
    simpa using this
  · show (Option.map _ ((Triggers.delete_one s.triggers tid).find? _)) = none
    rw [delete_one_no_match s.triggers tid huniq]
    rfl
  · intro draft v
    have hnone : WorkflowTemplates.get_one (MongoStorage.delete_template s tid false)
        tid draft v = none := by
      cases v with
      | some vv =>
        show ((MongoStorage.delete_template s tid false).headers.find?
          (fun r => r.id == tid && r.version == vv)) = none
        refine find?_none_of_all _ _ ?_
        intro r hr
        simp [hids r hr]
      | none =>
        cases draft with
        | true =>
          show ((MongoStorage.delete_template s tid false).headers.find?
            (fun r => r.id == tid && r.state == TemplateState.draft)) = none
          refine find?_none_of_all _ _ ?_
          intro r hr
          simp [hids r hr]
        | false =>
          show ((MongoStorage.delete_template s tid false).headers.find?
            (fun r => r.id == tid && r.state == TemplateState.active)) = none
          refine find?_none_of_all _ _ ?_
          intro r hr
          simp [hids r hr]
    rw [MongoStorage.get_template, hnone]

/-- Witness for C5 at `storeC3`: the whole template disappears and a
subsequent active fetch answers none. -/
theorem delete_template_full_witness :
    MetadataColl.get_one (MongoStorage.delete_template storeC3 "t" false) "t" = none ∧
    Triggers.get (MongoStorage.delete_template storeC3 "t" false) "t" = none ∧
    MongoStorage.get_template (MongoStorage.delete_template storeC3 "t" false)
      "t" false none = Except.ok none := by
  have h := delete_template_full storeC3 "t" (by decide)
  exact ⟨h.2.2.1, h.2.2.2.1, h.2.2.2.2 false none⟩

/-! ### Publishing without a draft (C4) -/

/-- Claim C4: `publishDraft` on an id with no Draft row fails with
`PublishError` and, the operation being rejected up front, the store — the
Active row included — is left exactly as it was. -/
theorem publish_no_draft_error (s : Store) (tid : String)
    (h : WorkflowTemplates.get_one s tid true none = none) :
    MongoStorage.publish_draft s tid = Except.error WfError.publishError ∧
    stepOp s (SOp.publishDraft tid) = s := by
  have hfind : s.headers.find?
      (fun r => r.id == tid && r.state == TemplateState.draft) = none := h
  have hany : s.headers.any
      (fun r => r.id == tid && r.state == TemplateState.draft) = false := by
    rw [List.any_eq_false]
    intro x hx
    exact List.find?_eq_none.1 hfind x hx
  have herr : MongoStorage.publish_draft s tid = Except.error WfError.publishError := by
    rw [MongoStorage.publish_draft, WorkflowTemplates.publish, hany]
    rfl
  refine ⟨herr, ?_⟩
  rw [stepOp, herr]

/-- A store with only an Active row of template `"t"`. -/
def storeC4 : Store :=
  { headers := [⟨"t", 1, TemplateState.active, [], []⟩],
    maxEver := fun i => if i = "t" then 1 else 0,
    taskBodies := [⟨"t", 1, "a", "b1"⟩],
    metadata := [⟨"t", "T", []⟩],
    triggers := [],
    nextOid := 0 }

/-- Witness for C4: publishing `"t"` with no draft fails and leaves the
store untouched. -/
theorem publish_no_draft_error_witness :
    MongoStorage.publish_draft storeC4 "t" = Except.error WfError.publishError ∧
    stepOp storeC4 (SOp.publishDraft "t") = storeC4 :=
  publish_no_draft_error storeC4 "t" rfl

/-! ### Create-draft validation (C7) -/

/-- Claim C7: A create-draft request lacking `title`, `graph` or `tasks` is
rejected with `ValidationError`; a request lacking only the `id` is not
rejected — it succeeds and the generated id is used. -/
theorem createDraft_validation :
    (∀ (s : Store) (spec : DraftSpec) (genId : String),
      (spec.title = none ∨ spec.graph = none ∨ spec.tasks = none) →
      MongoStorage.update_draft s spec genId =
        Except.error WfError.validationError) ∧
    (∀ (s : Store) (spec : DraftSpec) (genId : String)
      (title : String) (graph : List (String × List String))
      (tasks : List TaskSpec),
      spec.id = none → spec.title = some title → spec.graph = some graph →
      spec.tasks = some tasks →
      ∃ s' r, MongoStorage.update_draft s spec genId = Except.ok (s', r) ∧
        r.tid = genId) := by
  constructor
  · intro s spec genId hmiss
    cases hT : spec.title with
    | none => simp [MongoStorage.update_draft, hT]
    | some t =>
      cases hG : spec.graph with
      | none => simp [MongoStorage.update_draft, hT, hG]
      | some g =>
        cases hK : spec.tasks with
        | none => simp [MongoStorage.update_draft, hT, hG, hK]
        | some k =>
          rcases hmiss with h | h | h
          · rw [hT] at h; exact Option.noConfusion h
          · rw [hG] at h; exact Option.noConfusion h
          · rw [hK] at h; exact Option.noConfusion h
  · intro s spec genId title graph tasks hID hT hG hK
    have hv1 : ∀ (s0 : Store) (a tid : String) (v : Nat) (ts : List TaskSpec),
        WorkflowTemplates.get_last_version (TaskTemplates.insert_many s0 a v ts) tid =
          WorkflowTemplates.get_last_version s0 tid := fun _ _ _ _ _ => rfl
    have hv2 : ∀ (s0 : Store) (m : MetaDoc) (tid : String),
        WorkflowTemplates.get_last_version (MetadataColl.insert s0 m) tid =
          WorkflowTemplates.get_last_version s0 tid := fun _ _ _ => rfl
    have hisok : (MongoStorage.update_draft s spec genId).isOk = true := by
      simp only [MongoStorage.update_draft, hT, hG, hK]
      cases hM : MetadataColl.get_one s (spec.id.getD genId) with
      | some m =>
        simp only [hM, WorkflowTemplates.insert_draft]
        rw [hv1, if_pos rfl]
        rfl
      | none =>
        simp only [hM, WorkflowTemplates.insert_draft]
        rw [hv1, hv2, if_pos rfl]
        rfl
    cases hok : MongoStorage.update_draft s spec genId with
    | error e => rw [hok] at hisok; exact Bool.noConfusion hisok
    | ok sr =>
      obtain ⟨s', r⟩ := sr
      have hc := update_draft_ok s spec genId s' r hok
      refine ⟨s', r, rfl, ?_⟩
      rw [hc.1, hID]
      rfl

/-- A request missing its title. -/
def specNoTitle : DraftSpec :=
  { id := some "tpl", title := none, tags := none, topics := [],
    graph := some [], tasks := some [] }

/-- A request with no id but all required fields. -/
def specNoId : DraftSpec :=
  { id := none, title := some "T", tags := none, topics := [],
    graph := some [], tasks := some [⟨"1", "cfg"⟩] }

/-- Witness for C7: the missing-title request is rejected, the id-less
request succeeds under the generated id. -/
theorem createDraft_validation_witness :
    MongoStorage.update_draft emptyStore specNoTitle "gen" =
      Except.error WfError.validationError ∧
    (∃ s' r, MongoStorage.update_draft emptyStore specNoId "gen" =
      Except.ok (s', r) ∧ r.tid = "gen") :=
  ⟨createDraft_validation.1 emptyStore specNoTitle "gen" (Or.inl rfl),
   createDraft_validation.2 emptyStore specNoId "gen" "T" [] [⟨"1", "cfg"⟩]
     rfl rfl rfl rfl⟩

/-! ### Runtime dispatch by topic (C8) -/

/-- Claim C8: `get_for_topic` returns exactly the Active templates whose
trigger subscription contains the topic, each with its own (id, version)
task bodies attached; no metadata is merged: the result is independent of
the metadata collection and its elements carry no title/tags fields. -/
theorem get_for_topic_active_only (s : Store) (topic : String) :
    (∀ M, MongoStorage.get_for_topic { s with metadata := M } topic =
      MongoStorage.get_for_topic s topic) ∧
    (∀ t ∈ MongoStorage.get_for_topic s topic,
      t.state = TemplateState.active ∧ topic ∈ t.topics ∧
      t.tasks = TaskTemplates.get s t.id t.version ∧
      ∃ h ∈ s.headers, h.state = TemplateState.active ∧ topic ∈ h.topics ∧
        t = ⟨h.id, h.version, h.state, h.topics, h.graph,
             TaskTemplates.get s h.id h.version⟩) := by
  constructor
  · intro M; rfl
  · intro t ht
    rw [MongoStorage.get_for_topic] at ht
    obtain ⟨h, hmem, rfl⟩ := List.mem_map.1 ht
    rw [WorkflowTemplates.get_for_topic, List.mem_filter] at hmem
    obtain ⟨hh, hp⟩ := hmem
    simp only [Bool.and_eq_true, beq_iff_eq] at hp
    have htop : topic ∈ h.topics := by simpa using hp.2
    exact ⟨hp.1, htop, rfl, h, hh, hp.1, htop, rfl⟩

/-- A store with one Active template subscribed to `"top"` and one Draft. -/
def storeC8 : Store :=
  { headers := [⟨"t", 1, TemplateState.active, ["top"], []⟩,
                ⟨"u", 1, TemplateState.draft, ["top"], []⟩],
    maxEver := fun _ => 1,
    taskBodies := [⟨"t", 1, "a", "b1"⟩],
    metadata := [⟨"t", "T", []⟩],
    triggers := [], nextOid := 0 }

/-- Witness for C8 at `storeC8`: dropping the metadata collection does not
change the answer, and the single returned template is the Active one with
its bodies. -/
theorem get_for_topic_active_only_witness :
    MongoStorage.get_for_topic { storeC8 with metadata := [] } "top" =
      MongoStorage.get_for_topic storeC8 "top" ∧
    MongoStorage.get_for_topic storeC8 "top" =
      [⟨"t", 1, TemplateState.active, ["top"], [], [⟨"t", 1, "a", "b1"⟩]⟩] ∧
    (⟨"t", 1, TemplateState.active, ["top"], [],
      [⟨"t", 1, "a", "b1"⟩]⟩ : TopicTemplate).state = TemplateState.active := by
  refine ⟨(get_for_topic_active_only storeC8 "top").1 [], rfl, ?_⟩
  exact ((get_for_topic_active_only storeC8 "top").2 _ (by decide)).1

/-! ### Metadata merge on fetch (C9) -/

/-- Claim C9: When the header row exists but no metadata record does,
`get_template` raises (the `template.update(None)` TypeError) instead of
returning a document or none; and every successfully returned document
carries the stored metadata's title and tags. -/
theorem get_template_requires_metadata (s : Store) (tid : String)
    (draft : Bool) (v : Option Nat) :
    (∀ h, WorkflowTemplates.get_one s tid draft v = some h →
      MetadataColl.get_one s tid = none →
      MongoStorage.get_template s tid draft v =
        Except.error WfError.mergeTypeError) ∧
    (∀ t, MongoStorage.get_template s tid draft v = Except.ok (some t) →
      ∃ m, MetadataColl.get_one s tid = some m ∧
        t.title = m.title ∧ t.tags = m.tags) := by
  constructor
  · intro h hh hm
    rw [MongoStorage.get_template, hh, hm]
  · intro t ht
    rw [MongoStorage.get_template] at ht
    cases hh : WorkflowTemplates.get_one s tid draft v with
    | none => rw [hh] at ht; simp at ht
    | some hd =>
      rw [hh] at ht
      cases hm : MetadataColl.get_one s tid with
      | none => rw [hm] at ht; simp at ht
      | some m =>
        rw [hm] at ht
        simp only [Except.ok.injEq, Option.some.injEq] at ht
        subst ht
        exact ⟨m, rfl, rfl, rfl⟩

/-- A store with an Active header of `"t"` but no metadata record. -/
def storeC9 : Store :=
  { headers := [⟨"t", 1, TemplateState.active, [], []⟩],
    maxEver := fun _ => 1,
    taskBodies := [], metadata := [], triggers := [], nextOid := 0 }

/-- Witness for C9: fetching `"t"` from a store with a header but no
metadata raises; fetching from `storeC4` (metadata present) returns the
document with the metadata's title and tags merged. -/
theorem get_template_requires_metadata_witness :
    MongoStorage.get_template storeC9 "t" false none =
      Except.error WfError.mergeTypeError ∧
    ∃ m, MetadataColl.get_one storeC4 "t" = some m ∧
      (⟨"t", 1, TemplateState.active, [], [], "T", [],
        [⟨"t", 1, "a", "b1"⟩]⟩ : FullTemplate).title = m.title ∧
      (⟨"t", 1, TemplateState.active, [], [], "T", [],
        [⟨"t", 1, "a", "b1"⟩]⟩ : FullTemplate).tags = m.tags :=
  ⟨(get_template_requires_metadata storeC9 "t" false none).1
      ⟨"t", 1, TemplateState.active, [], []⟩ rfl rfl,
   (get_template_requires_metadata storeC4 "t" false none).2
      ⟨"t", 1, TemplateState.active, [], [], "T", [], [⟨"t", 1, "a", "b1"⟩]⟩ rfl⟩

/-! ### Trigger-form upsert (C10) -/

theorem replace_one_get (l : List TriggerDoc) (tid form : String) (fresh : Nat)
    (h : (l.filter (fun d => d.tid == tid)).length ≤ 1) :
    ((Triggers.replace_one_upsert l tid form fresh).find?
      (fun d => d.tid == tid)).map
        (fun d => (⟨d.tid, d.form⟩ : TriggerView)) = some ⟨tid, form⟩ ∧
    ((Triggers.replace_one_upsert l tid form fresh).filter
      (fun d => d.tid == tid)).length = 1 := by
  induction l with
  | nil =>
    constructor
    · show (List.find? _ [(⟨fresh, tid, form⟩ : TriggerDoc)]).map _ = _
      rw [List.find?_cons_of_pos _ (by simp)]
      rfl
    · show (List.filter _ [(⟨fresh, tid, form⟩ : TriggerDoc)]).length = 1
      rw [List.filter_cons_of_pos (by simp)]
      rfl
  | cons d rest ih =>
    cases hd : d.tid == tid with
    | true =>
      rw [Triggers.replace_one_upsert, hd, if_pos rfl]
      rw [List.filter_cons_of_pos (p := fun x : TriggerDoc => x.tid == tid) hd,
        List.length_cons] at h
      have hz : (rest.filter (fun x : TriggerDoc => x.tid == tid)).length = 0 := by
        omega
      constructor
      · rw [List.find?_cons_of_pos _ (by simp)]
        rfl
      · rw [List.filter_cons_of_pos (by simp), List.length_cons]
        have : (rest.filter (fun x : TriggerDoc => x.tid == tid)).length = 0 := hz
        omega
    | false =>
      rw [Triggers.replace_one_upsert, hd, if_neg Bool.false_ne_true]
      rw [List.filter_cons_of_neg (p := fun x : TriggerDoc => x.tid == tid)
        (by simp [hd])] at h
      obtain ⟨ih1, ih2⟩ := ih h
      constructor
      · rw [List.find?_cons_of_neg (p := fun x : TriggerDoc => x.tid == tid) _
          (by simp [hd])]
        exact ih1
      · rw [List.filter_cons_of_neg (p := fun x : TriggerDoc => x.tid == tid)
          (by simp [hd])]
        exact ih2

/-- Claim C10: `TriggerCollection.insert` is an upsert keyed by `tid`: under
the collection's unique index (at most one stored form per id), the insert
returns `{'tid': tid, 'form': form}`, an immediately following `get`
answers exactly that view with the internal `_id` excluded, exactly one
matching document is stored, and a second insert for the same id replaces
the form rather than adding a second document. -/
theorem trigger_insert_upsert (s : Store) (tid f1 f2 : String)
    (huniq : (s.triggers.filter (fun d => d.tid == tid)).length ≤ 1) :
    (Triggers.insert s tid f1).2 = ⟨tid, f1⟩ ∧
    Triggers.get (Triggers.insert s tid f1).1 tid = some ⟨tid, f1⟩ ∧
    ((Triggers.insert s tid f1).1.triggers.filter
      (fun d => d.tid == tid)).length = 1 ∧
    Triggers.get (Triggers.insert (Triggers.insert s tid f1).1 tid f2).1 tid =
      some ⟨tid, f2⟩ ∧
    ((Triggers.insert (Triggers.insert s tid f1).1 tid f2).1.triggers.filter
      (fun d => d.tid == tid)).length = 1 := by
  have h1 := replace_one_get s.triggers tid f1 s.nextOid huniq
  have h2 := replace_one_get
    (Triggers.replace_one_upsert s.triggers tid f1 s.nextOid) tid f2
    (s.nextOid + 1) (Nat.le_of_eq h1.2)
  exact ⟨rfl, h1.1, h1.2, h2.1, h2.2⟩

/-- Witness for C10 on the fresh store: the first and second inserts for
`"t"` are both observable through `get`, the second replacing the first. -/
theorem trigger_insert_upsert_witness :
    Triggers.get (Triggers.insert emptyStore "t" "f1").1 "t" =
      some ⟨"t", "f1"⟩ ∧
    Triggers.get
      (Triggers.insert (Triggers.insert emptyStore "t" "f1").1 "t" "f2").1 "t" =
      some ⟨"t", "f2"⟩ := by
  have h := trigger_insert_upsert emptyStore "t" "f1" "f2" (by decide)
  exact ⟨h.2.1, h.2.2.2.1⟩

end Nyuki
